import Mathlib

set_option maxRecDepth 20000

/-!
Verification development for the EasyMarkdown editor core (src/src/App.jsx).

The core under verification is the selection-aware text transformation engine
and its undo/redo history model.  JS strings are modelled as `List Char`
(character offsets coincide with JS code-unit offsets on the inputs considered
here); the React component state `text` together with the two mutable stacks
`undoStack.current` / `redoStack.current` is modelled as an explicit
`EditorState` record, with the JS array top (its last element, the `push`/`pop`
end) stored at the HEAD of the Lean list, so JS `shift()` (drop the oldest,
front, element) becomes `List.dropLast`.

Each definition mirrors one function of App.jsx; the selection that
`wrapSelection` programmatically restores via the deferred `setTimeout` is
returned as an explicit pair instead of being written into the textarea.
-/

/-- Editor session state: current buffer plus the two history stacks.
`α` is the buffer type (the JS code is untyped; buffers are `List Char`
where character content matters). Most-recent snapshot first. -/
structure EditorState (α : Type) where
  text : α
  undoStack : List α
  redoStack : List α
deriving DecidableEq, Repr

/-- App.jsx lines 22-26: `saveHistory` pushes the current `text` onto the undo
stack, drops the oldest entry when the length exceeds 100 (`shift()`), and
clears the redo stack. -/
def saveHistory {α : Type} (st : EditorState α) : EditorState α :=
  let u := st.text :: st.undoStack
  { st with
    undoStack := if u.length > 100 then u.dropLast else u
    redoStack := [] }

/-- App.jsx lines 28-32: `handleUndo` is a no-op on an empty undo stack;
otherwise it pushes the current text onto the redo stack and pops the top
undo entry into the current text. -/
def handleUndo {α : Type} (st : EditorState α) : EditorState α :=
  match st.undoStack with
  | [] => st
  | t :: rest =>
    { text := t, undoStack := rest, redoStack := st.text :: st.redoStack }

/-- App.jsx lines 34-38: `handleRedo`, symmetric to `handleUndo`. -/
def handleRedo {α : Type} (st : EditorState α) : EditorState α :=
  match st.redoStack with
  | [] => st
  | t :: rest =>
    { text := t, undoStack := st.text :: st.undoStack, redoStack := rest }

/-- The React `setText` state setter: replaces the current buffer. -/
def setText {α : Type} (b : α) (st : EditorState α) : EditorState α :=
  { st with text := b }

/-- The common shape of every captured edit in App.jsx (`wrapSelection`,
`insertAtLineStart`): `saveHistory()` followed by `setText(newText)`,
specialised to an arbitrary replacement buffer. -/
def editTo {α : Type} (b : α) (st : EditorState α) : EditorState α :=
  setText b (saveHistory st)

/-- App.jsx lines 40-54: `wrapSelection(before, after)` (the JS default
`after = before` is supplied explicitly at call sites).  `slice` on
nonnegative in-range indices is `take`/`drop`.  Returns the new state
together with the selection `(selectionStart, selectionEnd)` that the
deferred callback writes back into the textarea. -/
def wrapSelection (before after : List Char) (start stop : Nat)
    (st : EditorState (List Char)) : EditorState (List Char) × Nat × Nat :=
  let selected := (st.text.take stop).drop start
  let newText :=
    st.text.take start ++ before ++ selected ++ after ++ st.text.drop stop
  ({ saveHistory st with text := newText },
   start + before.length, start + before.length + selected.length)

/-- Helper: the undo stack right after `saveHistory` always starts with the
text captured by it: trimming (if any) drops the last (oldest) element,
never the fresh head. -/
lemma saveHistory_undoStack_head {α : Type} (st : EditorState α) :
    ∃ rest, (saveHistory st).undoStack = st.text :: rest ∧
      (saveHistory st).redoStack = [] ∧ (saveHistory st).text = st.text := by
  cases hl : st.undoStack with
  | nil =>
    refine ⟨[], ?_, rfl, rfl⟩
    simp [saveHistory, hl]
  | cons a l =>
    by_cases h : (st.text :: a :: l).length > 100
    · refine ⟨(a :: l).dropLast, ?_, rfl, rfl⟩
      simp only [saveHistory, hl]
      rw [if_pos h]
      exact List.dropLast_cons₂
    · refine ⟨a :: l, ?_, rfl, rfl⟩
      simp only [saveHistory, hl]
      rw [if_neg h]

/-- Helper: extracting the middle block of a concatenation by take/drop. -/
lemma take_drop_middle_eq {α : Type} (A M B : List α) (i j : Nat)
    (hi : i = A.length) (hj : j = A.length + M.length) :
    ((A ++ M ++ B).take j).drop i = M := by
  subst hi hj
  rw [List.append_assoc, List.take_append, List.take_left, List.drop_left]

/-- Claim C1: for every buffer, selection `(start, stop)` with
`start ≤ stop ≤ length`, and strings `before`/`after`, the wrap transform
returns `buffer[0:start] ++ before ++ buffer[start:stop] ++ after ++
buffer[stop:]`, sets the new selection to
`(start + |before|, start + |before| + (stop - start))`, and selecting that
range in the new buffer yields exactly the original selected substring; in
particular `wrap("**")` on `"hello world"` with selection `(0,5)` yields
`"**hello** world"` with new selection `(2,7)`. -/
theorem wrap_transform_correct :
    (∀ (st : EditorState (List Char)) (before after : List Char) (s e : Nat),
      s ≤ e → e ≤ st.text.length →
      (wrapSelection before after s e st).1.text
          = st.text.take s ++ before ++ (st.text.take e).drop s ++ after
              ++ st.text.drop e
        ∧ (wrapSelection before after s e st).2
          = (s + before.length, s + before.length + (e - s))
        ∧ (((wrapSelection before after s e st).1.text.take
              (s + before.length + (e - s))).drop (s + before.length))
          = (st.text.take e).drop s)
    ∧ (wrapSelection ("**").toList ("**").toList 0 5
        (EditorState.mk ("hello world").toList [] [])).1.text
        = ("**hello** world").toList
    ∧ (wrapSelection ("**").toList ("**").toList 0 5
        (EditorState.mk ("hello world").toList [] [])).2 = (2, 7) := by
  refine ⟨?_, by decide, by decide⟩
  intro st before after s e hse hel
  have hsl : s ≤ st.text.length := le_trans hse hel
  have hsel : ((st.text.take e).drop s).length = e - s := by
    simp [List.length_drop, List.length_take, Nat.min_eq_left hel]
  refine ⟨rfl, ?_, ?_⟩
  · simp [wrapSelection, hsel]
  · show (((st.text.take s ++ before ++ ((st.text.take e).drop s) ++ after
        ++ st.text.drop e).take (s + before.length + (e - s))).drop
          (s + before.length)) = (st.text.take e).drop s
    have hA : (st.text.take s ++ before).length = s + before.length := by
      simp [List.length_take, Nat.min_eq_left hsl]
    have key := take_drop_middle_eq (st.text.take s ++ before)
      ((st.text.take e).drop s) (after ++ st.text.drop e)
      (s + before.length) (s + before.length + (e - s))
      hA.symm (by rw [hA, hsel])
    simpa only [List.append_assoc] using key

/-- Witness for C1 at the spec's own example: buffer `"hello world"`,
selection `(0,5)`, `before = after = "**"`. -/
theorem wrap_transform_correct_witness :
    (0 : Nat) ≤ 5 ∧ (5 : Nat) ≤ (("hello world").toList).length ∧
    ((wrapSelection ("**").toList ("**").toList 0 5
        (EditorState.mk ("hello world").toList [] [])).1.text
        = ("hello world").toList.take 0 ++ ("**").toList
            ++ ((("hello world").toList.take 5).drop 0) ++ ("**").toList
            ++ ("hello world").toList.drop 5
      ∧ (wrapSelection ("**").toList ("**").toList 0 5
          (EditorState.mk ("hello world").toList [] [])).2
          = (0 + ("**").toList.length, 0 + ("**").toList.length + (5 - 0))
      ∧ (((wrapSelection ("**").toList ("**").toList 0 5
            (EditorState.mk ("hello world").toList [] [])).1.text.take
              (0 + ("**").toList.length + (5 - 0))).drop
                (0 + ("**").toList.length))
          = (("hello world").toList.take 5).drop 0) :=
  ⟨by decide, by decide,
    wrap_transform_correct.1 (EditorState.mk ("hello world").toList [] [])
      ("**").toList ("**").toList 0 5 (by decide) (by decide)⟩

/-- Claim C3: a captured edit from `B0` to `B1` followed by `undo` restores
`B0` exactly, and an immediately following `redo` restores `B1` exactly,
for every starting history state. -/
theorem undo_redo_roundtrip {α : Type} :
    ∀ (st : EditorState α) (b1 : α),
      (handleUndo (editTo b1 st)).text = st.text
        ∧ (handleRedo (handleUndo (editTo b1 st))).text = b1 := by
  intro st b1
  obtain ⟨rest, hu, hr, -⟩ := saveHistory_undoStack_head st
  have h1 : handleUndo (editTo b1 st)
      = { text := st.text, undoStack := rest, redoStack := [b1] } := by
    show handleUndo (setText b1 (saveHistory st)) = _
    simp [handleUndo, setText, hu, hr]
  rw [h1]
  exact ⟨rfl, rfl⟩

/-- Claim C5: `saveHistory` (the capture performed by every non-undo/redo
edit) leaves the redo stack empty, and consequently in
`edit₁; undo; edit₂; redo` the final redo is a no-op. -/
theorem capture_clears_redo {α : Type} :
    (∀ st : EditorState α, (saveHistory st).redoStack = [])
    ∧ ∀ (st : EditorState α) (b1 b2 : α),
        handleRedo (editTo b2 (handleUndo (editTo b1 st)))
          = editTo b2 (handleUndo (editTo b1 st)) := by
  constructor
  · intro st; rfl
  · intro st b1 b2; rfl

/-- Claim C7: undo with an empty undo stack and redo with an empty redo
stack are silent no-ops: the whole state (buffer and both stacks) is
returned unchanged, and both functions are total (no error). -/
theorem empty_stack_noop {α : Type} :
    ∀ st : EditorState α,
      (st.undoStack = [] → handleUndo st = st)
        ∧ (st.redoStack = [] → handleRedo st = st) := by
  intro st
  constructor
  · intro h; simp [handleUndo, h]
  · intro h; simp [handleRedo, h]

/-- Witness for C7 at the empty-stack state with buffer `0`. -/
theorem empty_stack_noop_witness :
    (EditorState.mk (0 : Nat) [] []).undoStack = []
      ∧ (EditorState.mk (0 : Nat) [] []).redoStack = []
      ∧ handleUndo (EditorState.mk (0 : Nat) [] [])
          = EditorState.mk (0 : Nat) [] []
      ∧ handleRedo (EditorState.mk (0 : Nat) [] [])
          = EditorState.mk (0 : Nat) [] [] :=
  ⟨rfl, rfl, (empty_stack_noop (EditorState.mk (0 : Nat) [] [])).1 rfl,
    (empty_stack_noop (EditorState.mk (0 : Nat) [] [])).2 rfl⟩

/-- The combined collection of buffer snapshots held by a state: the current
buffer together with all entries of both stacks, as a multiset. -/
def snapshots {α : Type} (st : EditorState α) : Multiset α :=
  st.text ::ₘ ((st.undoStack : Multiset α) + (st.redoStack : Multiset α))

/-- Claim C10: on a non-empty undo stack, `handleUndo` pops exactly the top
undo entry into the current buffer and pushes the previous current buffer
onto the redo stack; `handleRedo` is exactly symmetric; and both operations
preserve the combined multiset of undo entries, redo entries and the current
buffer (no snapshot is duplicated or lost). -/
theorem undo_redo_move_one {α : Type} :
    ∀ st : EditorState α,
      (∀ (t : α) (rest : List α), st.undoStack = t :: rest →
        handleUndo st = EditorState.mk t rest (st.text :: st.redoStack))
      ∧ (∀ (t : α) (rest : List α), st.redoStack = t :: rest →
        handleRedo st = EditorState.mk t (st.text :: st.undoStack) rest)
      ∧ snapshots (handleUndo st) = snapshots st
      ∧ snapshots (handleRedo st) = snapshots st := by
  intro st
  refine ⟨fun t rest h => by simp [handleUndo, h],
          fun t rest h => by simp [handleRedo, h], ?_, ?_⟩
  · cases hu : st.undoStack with
    | nil => simp [handleUndo, hu]
    | cons t rest =>
      simp only [handleUndo, hu, snapshots, ← Multiset.cons_coe,
        Multiset.cons_add, Multiset.add_cons]
      rw [Multiset.cons_swap]
  · cases hr : st.redoStack with
    | nil => simp [handleRedo, hr]
    | cons t rest =>
      simp only [handleRedo, hr, snapshots, ← Multiset.cons_coe,
        Multiset.cons_add, Multiset.add_cons]
      rw [Multiset.cons_swap]

/-- Witness for C10 at a concrete two-entry state. -/
theorem undo_redo_move_one_witness :
    (EditorState.mk (5 : Nat) [3] [7]).undoStack = 3 :: []
      ∧ (EditorState.mk (5 : Nat) [3] [7]).redoStack = 7 :: []
      ∧ handleUndo (EditorState.mk (5 : Nat) [3] [7])
          = EditorState.mk 3 [] (5 :: [7])
      ∧ handleRedo (EditorState.mk (5 : Nat) [3] [7])
          = EditorState.mk 7 (5 :: [3]) [] :=
  ⟨rfl, rfl,
    (undo_redo_move_one (EditorState.mk (5 : Nat) [3] [7])).1 3 [] rfl,
    (undo_redo_move_one (EditorState.mk (5 : Nat) [3] [7])).2.1 7 [] rfl⟩

/-- One user-level history operation: a captured edit replacing the buffer,
an undo, or a redo. -/
inductive HistOp (α : Type) where
  | edit (b : α)
  | undo
  | redo
deriving DecidableEq, Repr

/-- Apply one history operation to the state, exactly as App.jsx would
(an edit is `saveHistory()` followed by `setText(newBuffer)`). -/
def applyOp {α : Type} : HistOp α → EditorState α → EditorState α
  | .edit b, st => editTo b st
  | .undo, st => handleUndo st
  | .redo, st => handleRedo st

/-- Run a sequence of history operations left to right. -/
def runOps {α : Type} (ops : List (HistOp α)) (st : EditorState α) :
    EditorState α :=
  ops.foldl (fun s op => applyOp op s) st

/-- Helper invariant: every operation preserves
`|undoStack| + |redoStack| ≤ 100`. -/
lemma applyOp_size_le {α : Type} (op : HistOp α) (st : EditorState α)
    (hst : st.undoStack.length + st.redoStack.length ≤ 100) :
    (applyOp op st).undoStack.length + (applyOp op st).redoStack.length
      ≤ 100 := by
  cases op with
  | edit b =>
    simp only [applyOp, editTo, setText, saveHistory]
    split
    · simp only [List.length_dropLast, List.length_cons, List.length_nil]
      omega
    · simp only [List.length_cons, List.length_nil]
      next h =>
        simp only [List.length_cons, Nat.not_lt] at h
        omega
  | undo =>
    cases hu : st.undoStack with
    | nil => simpa [applyOp, handleUndo, hu] using hst
    | cons t rest =>
      simp only [applyOp, handleUndo, hu]
      simp only [List.length_cons]
      rw [hu] at hst
      simp only [List.length_cons] at hst
      omega
  | redo =>
    cases hr : st.redoStack with
    | nil => simpa [applyOp, handleRedo, hr] using hst
    | cons t rest =>
      simp only [applyOp, handleRedo, hr]
      simp only [List.length_cons]
      rw [hr] at hst
      simp only [List.length_cons] at hst
      omega

/-- Helper: the size invariant holds along any run. -/
lemma runOps_size_le {α : Type} (ops : List (HistOp α)) (st : EditorState α)
    (hst : st.undoStack.length + st.redoStack.length ≤ 100) :
    (runOps ops st).undoStack.length + (runOps ops st).redoStack.length
      ≤ 100 := by
  induction ops generalizing st with
  | nil => exact hst
  | cons op ops ih =>
    exact ih (applyOp op st) (applyOp_size_le op st hst)

/-- The concrete run of C4: 150 distinct captured edits, the i-th replacing
the buffer with `i + 1`, starting from buffer `0` and empty stacks (so the
pre-image of edit i is the value i, and the oldest 50 pre-images are
`0, …, 49`). -/
def edits150 : List (HistOp Nat) :=
  (List.range 150).map (fun i => HistOp.edit (i + 1))

/-- Helper: `handleUndo` preserves the property that the current buffer and
every undo entry are at least 50. -/
lemma handleUndo_ge50 (st : EditorState Nat)
    (h : 50 ≤ st.text ∧ ∀ x ∈ st.undoStack, 50 ≤ x) :
    50 ≤ (handleUndo st).text ∧ ∀ x ∈ (handleUndo st).undoStack, 50 ≤ x := by
  cases hu : st.undoStack with
  | nil => simpa [handleUndo, hu] using h
  | cons t rest =>
    rw [hu] at h
    refine ⟨?_, ?_⟩
    · simp only [handleUndo, hu]
      exact h.2 t (by simp)
    · simp only [handleUndo, hu]
      intro x hx
      exact h.2 x (by simp [hx])

/-- Claim C4: the undo stack never exceeds 100 entries over any operation
sequence from empty stacks; when the stack already holds 100 entries a
capture evicts the oldest entry (FIFO) and the size stays 100; performing
the 150 distinct edits of `edits150` leaves exactly 100 undo entries; and
after those 150 edits no sequence of repeated undos ever exhibits one of
the 50 oldest pre-images `0, …, 49` as the current buffer. -/
theorem undo_stack_bounded :
    (∀ (α : Type) (b0 : α) (ops : List (HistOp α)),
      (runOps ops (EditorState.mk b0 [] [])).undoStack.length ≤ 100)
    ∧ (∀ (α : Type) (st : EditorState α), st.undoStack.length = 100 →
        (saveHistory st).undoStack = (st.text :: st.undoStack).dropLast
          ∧ (saveHistory st).undoStack.length = 100)
    ∧ (runOps edits150 (EditorState.mk 0 [] [])).undoStack.length = 100
    ∧ (∀ (k j : Nat), j < 50 →
        (handleUndo^[k] (runOps edits150 (EditorState.mk 0 [] []))).text
          ≠ j) := by
  refine ⟨?_, ?_, by decide, ?_⟩
  · intro α b0 ops
    have h := runOps_size_le ops (EditorState.mk b0 [] []) (by simp)
    omega
  · intro α st hlen
    have hc : (st.text :: st.undoStack).length > 100 := by
      simp [hlen]
    constructor
    · simp only [saveHistory]
      rw [if_pos hc]
    · simp only [saveHistory]
      rw [if_pos hc]
      simp [List.length_dropLast, hlen]
  · intro k j hj
    have base : 50 ≤ (runOps edits150 (EditorState.mk 0 [] [])).text
        ∧ ∀ x ∈ (runOps edits150 (EditorState.mk 0 [] [])).undoStack,
            50 ≤ x := by
      constructor
      · decide
      · decide
    have step : ∀ k : Nat,
        50 ≤ (handleUndo^[k] (runOps edits150 (EditorState.mk 0 [] []))).text
          ∧ ∀ x ∈ (handleUndo^[k]
                (runOps edits150 (EditorState.mk 0 [] []))).undoStack,
              50 ≤ x := by
      intro k
      induction k with
      | zero => exact base
      | succ n ih =>
        rw [Function.iterate_succ_apply']
        exact handleUndo_ge50 _ ih
    have := (step k).1
    omega

/-- Witness for C4: the eviction clause at a concrete 100-entry stack, and
the unrecoverability clause at `k = 1`, `j = 0`. -/
theorem undo_stack_bounded_witness :
    (EditorState.mk (7 : Nat) (List.replicate 100 3) []).undoStack.length
        = 100
      ∧ (saveHistory (EditorState.mk (7 : Nat) (List.replicate 100 3) [])
          ).undoStack
          = ((7 : Nat) :: List.replicate 100 3).dropLast
      ∧ (0 : Nat) < 50
      ∧ (handleUndo^[1] (runOps edits150 (EditorState.mk 0 [] []))).text
          ≠ 0 :=
  ⟨by decide,
    (undo_stack_bounded.2.1 Nat
      (EditorState.mk (7 : Nat) (List.replicate 100 3) []) (by decide)).1,
    by decide,
    undo_stack_bounded.2.2.2 1 0 (by decide)⟩

/-- App.jsx lines 63-73: the `lines.map` body of `insertAtLineStart`, with the
running `charCount` made explicit.  NOTE the faithful quirk: `charCount +=
line.length + 1` executes after `line = prefix + line`, so the running offset
of every later line includes the prefixes already inserted into earlier
touched lines. -/
def prefixLinesGo (pfx : List Char) (s e : Nat) :
    Nat → List (List Char) → List (List Char)
  | _, [] => []
  | charCount, line :: rest =>
    let lineStart := charCount
    let lineEnd := charCount + line.length
    let line2 := if s ≤ lineEnd ∧ lineStart ≤ e then pfx ++ line else line
    line2 :: prefixLinesGo pfx s e (charCount + line2.length + 1) rest

/-- App.jsx lines 56-76: `insertAtLineStart(prefix)`: capture history, split
the buffer on newlines, prefix the lines the running-offset overlap test
selects, and rejoin with newlines. -/
def insertAtLineStart (pfx : List Char) (start stop : Nat)
    (st : EditorState (List Char)) : EditorState (List Char) :=
  { saveHistory st with
    text :=
      List.intercalate ('\n' :: [])
        (prefixLinesGo pfx start stop 0 (st.text.splitOn '\n')) }

/-- Line-prefix semantics following the words of claim C2 / spec §4.2: a line
is touched iff its character range measured in the ORIGINAL buffer overlaps
the selection (the running offset advances by the original line length). -/
def prefixLinesClaimGo (pfx : List Char) (s e : Nat) :
    Nat → List (List Char) → List (List Char)
  | _, [] => []
  | charCount, line :: rest =>
    (if s ≤ charCount + line.length ∧ charCount ≤ e then pfx ++ line
     else line)
      :: prefixLinesClaimGo pfx s e (charCount + line.length + 1) rest

/-- Buffer transformation claimed by C2, assembled from
`prefixLinesClaimGo`. -/
def insertAtLineStartClaim (pfx : List Char) (start stop : Nat)
    (buffer : List Char) : List Char :=
  List.intercalate ('\n' :: [])
    (prefixLinesClaimGo pfx start stop 0 (buffer.splitOn '\n'))

/-- Claim C2 is violated by the code: on buffer `"a\nb\nc"` with the
whole-buffer selection `(0,5)` and prefix `"- "`, the code leaves line `"c"`
unprefixed (its running offset includes the two already-inserted prefixes,
pushing its range past the selection), while the claimed
original-buffer-range semantics prefixes all three lines.  The claim's own
example `(2,2)` does agree with the code. -/
theorem insertAtLineStart_offset_drift :
    (insertAtLineStart ("- ").toList 0 5
        (EditorState.mk ("a\nb\nc").toList [] [])).text
      = ("- a\n- b\nc").toList
    ∧ insertAtLineStartClaim ("- ").toList 0 5 ("a\nb\nc").toList
      = ("- a\n- b\n- c").toList
    ∧ (insertAtLineStart ("- ").toList 0 5
        (EditorState.mk ("a\nb\nc").toList [] [])).text
      ≠ insertAtLineStartClaim ("- ").toList 0 5 ("a\nb\nc").toList
    ∧ (insertAtLineStart ("- ").toList 2 2
        (EditorState.mk ("a\nb\nc").toList [] [])).text
      = ("a\n- b\nc").toList := by
  refine ⟨by decide, by decide, by decide, by decide⟩

/-- App.jsx lines 92-95: the Ctrl+L link shortcut.  `prompt` returning `null`
(cancel) is `none`; JS truthiness makes the empty string falsy, so both
abort before `wrapSelection` (and hence before `saveHistory`). -/
def handleLink (url : Option String) (start stop : Nat)
    (st : EditorState (List Char)) : EditorState (List Char) :=
  match url with
  | none => st
  | some u =>
    if u = "" then st
    else (wrapSelection ('[' :: []) ("](" ++ u ++ ")").toList start stop st).1

/-- App.jsx lines 107-110: the Ctrl+Shift+I image shortcut.  The `after`
argument in the source is the template literal containing only `)`: the
prompted URL is used solely for the truthiness test and never appears in
the output. -/
def handleImage (imgUrl : Option String) (start stop : Nat)
    (st : EditorState (List Char)) : EditorState (List Char) :=
  match imgUrl with
  | none => st
  | some u =>
    if u = "" then st
    else (wrapSelection ("![](").toList (")").toList start stop st).1

/-- App.jsx lines 116-125: the table skeleton string built by the
Ctrl+Shift+G handler, with the three JS `for` loops rendered as folds over
`List.range`. -/
def genTable (cols rows : Nat) : List Char :=
  let t := ("| ").toList
  let t := (List.range cols).foldl
    (fun t c => t ++ ("Header " ++ toString (c + 1) ++ " | ").toList) t
  let t := t ++ ("\n| ").toList
  let t := (List.range cols).foldl (fun t _ => t ++ ("---- | ").toList) t
  let t := t ++ ("\n").toList
  (List.range rows).foldl
    (fun t _ =>
      ((List.range cols).foldl (fun t2 _ => t2 ++ ("Data | ").toList)
        (t ++ ("| ").toList)) ++ ("\n").toList) t

/-- App.jsx lines 112-128: the Ctrl+Shift+G table shortcut.  The two
`parseInt(prompt(...))` results are modelled as `Option Int` with `none`
standing for `NaN` (cancelled or non-numeric input); every comparison with
`NaN` is false in JS, so the `cols > 0 && rows > 0` gate fails on `none`. -/
def handleTable (cols rows : Option Int) (start stop : Nat)
    (st : EditorState (List Char)) : EditorState (List Char) :=
  match cols, rows with
  | some c, some r =>
    if 0 < c ∧ 0 < r then
      (wrapSelection (genTable c.toNat r.toNat) [] start stop st).1
    else st
  | none, _ => st
  | some _, none => st

/-- Claim C6: a cancelled or empty URL prompt (link and image shortcuts) and
a cancelled, non-numeric or non-positive table dimension prompt abort the
transform with zero side effects: the returned state — buffer, undo stack
and redo stack — is the input state itself, so `saveHistory` (the capture)
is never reached. -/
theorem prompt_cancel_no_side_effects :
    ∀ (st : EditorState (List Char)) (s e : Nat) (url : Option String)
      (cols rows : Option Int),
      ((url = none ∨ url = some ("")) →
        handleLink url s e st = st ∧ handleImage url s e st = st)
      ∧ ((cols = none ∨ rows = none ∨
            (∀ c, cols = some c → c ≤ 0) ∨ (∀ r, rows = some r → r ≤ 0)) →
          handleTable cols rows s e st = st) := by
  intro st s e url cols rows
  constructor
  · rintro (rfl | rfl)
    · exact ⟨rfl, rfl⟩
    · exact ⟨by simp [handleLink], by simp [handleImage]⟩
  · intro h
    match cols, rows with
    | none, _ => rfl
    | some c, none => rfl
    | some c, some r =>
      have hneg : ¬(0 < c ∧ 0 < r) := by
        rintro ⟨h1, h2⟩
        rcases h with h | h | h | h
        · exact Option.noConfusion h
        · exact Option.noConfusion h
        · have := h c rfl; omega
        · have := h r rfl; omega
      simp only [handleTable]
      rw [if_neg hneg]

/-- Witness for C6: empty-string URL for link/image, cancelled column prompt
for the table, on a concrete two-character buffer. -/
theorem prompt_cancel_no_side_effects_witness :
    ((some ("") : Option String) = none ∨ (some ("") : Option String) = some (""))
      ∧ (handleLink (some ("")) 0 1 (EditorState.mk ("ab").toList [] [])
            = EditorState.mk ("ab").toList [] []
          ∧ handleImage (some ("")) 0 1 (EditorState.mk ("ab").toList [] [])
            = EditorState.mk ("ab").toList [] [])
      ∧ ((none : Option Int) = none ∨ (some 1 : Option Int) = none ∨
          (∀ c, (none : Option Int) = some c → c ≤ 0) ∨
          (∀ r, (some 1 : Option Int) = some r → r ≤ 0))
      ∧ handleTable none (some 1) 0 1 (EditorState.mk ("ab").toList [] [])
          = EditorState.mk ("ab").toList [] [] :=
  ⟨Or.inr rfl,
    (prompt_cancel_no_side_effects (EditorState.mk ("ab").toList [] [])
      0 1 (some ("")) none (some 1)).1 (Or.inr rfl),
    Or.inl rfl,
    (prompt_cancel_no_side_effects (EditorState.mk ("ab").toList [] [])
      0 1 (some ("")) none (some 1)).2 (Or.inl rfl)⟩

/-- Claim C8 is violated by the code: on buffer `"x"`, selection `(0,1)` and
prompted URL `"u"`, the image shortcut produces `"![](x)"` — the URL does
not appear anywhere in the output (the claimed output with the URL as
trailing text would be `"![](x)u"`). -/
theorem image_url_dropped_counterexample :
    (handleImage (some ("u" : String)) 0 1
        (EditorState.mk ("x").toList [] [])).text
      = ("![](x)").toList
    ∧ ("![](x)").toList ≠ ("![](x)u").toList
    ∧ ¬ ('u' ∈ (handleImage (some ("u" : String)) 0 1
        (EditorState.mk ("x").toList [] [])).text) := by
  refine ⟨by decide, by decide, by decide⟩

/-- Claim C8 amended: for a non-empty prompted URL the image shortcut is
exactly `wrap("![](", ")")`; the URL is used only for the non-emptiness
gate and is discarded, so the result is
`buffer[0:s] ++ "![](" ++ buffer[s:e] ++ ")" ++ buffer[e:]` and is
independent of which non-empty URL was entered. -/
theorem image_wrap_discards_url :
    ∀ (st : EditorState (List Char)) (s e : Nat) (u : String), u ≠ "" →
      handleImage (some u) s e st
          = (wrapSelection ("![](").toList (")").toList s e st).1
        ∧ (handleImage (some u) s e st).text
          = st.text.take s ++ ("![](").toList ++ (st.text.take e).drop s
              ++ (")").toList ++ st.text.drop e
        ∧ ∀ u2 : String, u2 ≠ "" →
            handleImage (some u) s e st = handleImage (some u2) s e st := by
  intro st s e u hu
  refine ⟨?_, ?_, ?_⟩
  · simp only [handleImage]
    rw [if_neg hu]
  · simp only [handleImage]
    rw [if_neg hu]
    rfl
  · intro u2 hu2
    simp only [handleImage]
    rw [if_neg hu, if_neg hu2]

/-- Witness for the amended C8 at URL `"u"`, buffer `"x"`, selection
`(0,1)`. -/
theorem image_wrap_discards_url_witness :
    ("u" : String) ≠ "" ∧
    (handleImage (some ("u" : String)) 0 1
          (EditorState.mk ("x").toList [] [])
        = (wrapSelection ("![](").toList (")").toList 0 1
            (EditorState.mk ("x").toList [] [])).1
      ∧ (handleImage (some ("u" : String)) 0 1
            (EditorState.mk ("x").toList [] [])).text
          = ("x").toList.take 0 ++ ("![](").toList
              ++ (("x").toList.take 1).drop 0 ++ (")").toList
              ++ ("x").toList.drop 1
      ∧ ∀ u2 : String, u2 ≠ "" →
          handleImage (some ("u" : String)) 0 1
              (EditorState.mk ("x").toList [] [])
            = handleImage (some u2) 0 1
                (EditorState.mk ("x").toList [] [])) :=
  ⟨by decide,
    image_wrap_discards_url (EditorState.mk ("x").toList [] []) 0 1
      ("u" : String) (by decide)⟩

/-- Helper: a JS `for` loop appending `f c` to a string accumulator is the
initial value followed by the concatenation of all pieces. -/
lemma foldl_append_flatten {β : Type} (f : β → List Char) :
    ∀ (l : List β) (init : List Char),
      l.foldl (fun t a => t ++ f a) init = init ++ (l.map f).flatten := by
  intro l
  induction l with
  | nil => intro init; simp
  | cons a l ih =>
    intro init
    simp only [List.foldl_cons, List.map_cons, List.flatten_cons, ih,
      List.append_assoc]

/-- Helper: the constant-piece case of `foldl_append_flatten`. -/
lemma foldl_append_const {β : Type} (x : List Char) (l : List β)
    (init : List Char) :
    l.foldl (fun t _ => t ++ x) init
      = init ++ (List.replicate l.length x).flatten := by
  have h := foldl_append_flatten (fun _ : β => x) l init
  rw [List.map_const'] at h
  exact h

/-- Helper: the outer row loop of the table generator appends one full data
row per iteration. -/
lemma rows_foldl_eq (cols : Nat) (dataCell bar nl : List Char) :
    ∀ (l : List Nat) (init : List Char),
      l.foldl
        (fun t _ =>
          ((List.range cols).foldl (fun t2 _ => t2 ++ dataCell)
            (t ++ bar)) ++ nl) init
      = init ++ (List.replicate l.length
          (bar ++ ((List.replicate cols dataCell).flatten ++ nl))).flatten := by
  intro l
  induction l with
  | nil => intro init; simp
  | cons a l ih =>
    intro init
    simp only [List.foldl_cons, ih, foldl_append_const, List.length_range,
      List.length_cons, List.replicate_succ, List.flatten_cons,
      List.append_assoc]

/-- Claim C9: with columns = 2 and rows = 1 the generated table is exactly a
header row with cells `Header 1`, `Header 2`, one divider row of two `----`
cells and one data row of two `Data` cells, each row newline-terminated; in
general the skeleton is the header and divider rows followed by `rows`
copies of a data row holding `cols` `Data` cells (one per row×column); and
the Ctrl+Shift+G handler inserts the generated table at the selection via
`wrap(table, "")`. -/
theorem table_skeleton :
    genTable 2 1
        = ("| Header 1 | Header 2 | \n| ---- | ---- | \n| Data | Data | \n"
            ).toList
    ∧ (∀ (cols rows : Nat),
        genTable cols rows
          = ("| ").toList
              ++ ((List.range cols).map
                  (fun c => ("Header " ++ toString (c + 1) ++ " | ").toList)
                  ).flatten
              ++ (("\n| ").toList
              ++ ((List.replicate cols (("---- | ").toList)).flatten
              ++ (("\n").toList
              ++ (List.replicate rows
                  (("| ").toList
                    ++ ((List.replicate cols (("Data | ").toList)).flatten
                    ++ ("\n").toList))).flatten))))
    ∧ (∀ (st : EditorState (List Char)) (s e : Nat),
        handleTable (some 2) (some 1) s e st
          = (wrapSelection (genTable 2 1) [] s e st).1) := by
  refine ⟨by decide, ?_, ?_⟩
  · intro cols rows
    simp only [genTable]
    rw [rows_foldl_eq, foldl_append_const, foldl_append_flatten]
    simp only [List.length_range, List.append_assoc]
  · intro st s e
    simp only [handleTable]
    rw [if_pos (⟨by decide, by decide⟩ : (0 : Int) < 2 ∧ (0 : Int) < 1)]
    rfl
